/-
Verification of the Rowland-torus geometric kernel and element placement
engine of `marxs/design/rowland.py`.

The Python source works with numpy floating point arrays; here floats are
embedded as real numbers (`ℝ`), 3-vectors as an explicit `Vec3` structure and
3×3 matrices as `Mat3` (three row vectors, matching the row-wise construction
`rot_mat[0, :] = ...` in the source).  A 4×4 homogeneous pose
(`pos4d`) is embedded as a rotation block plus a translation vector; per the
data model of the design ("rotation + translation, implicit uniform/no scale",
"rotation block orthonormal") the rotation block carries the orthonormality
invariant, so the inverse pose is application of the transposed rotation.
Fallible code paths (`raise ValueError(...)`, `raise ElementPlacementError(...)`,
uncaught `IndexError`) are embedded as `Except` values with one constructor per
distinguishable Python exception.
-/
import Mathlib

noncomputable section

open Real

/-! ### 3-vectors and 3×3 matrices -/

/-- A Euclidean 3-vector (a numpy array of shape `(3,)`). -/
structure Vec3 where
  x : ℝ
  y : ℝ
  z : ℝ

namespace Vec3

instance : Add Vec3 := ⟨fun a b => ⟨a.x + b.x, a.y + b.y, a.z + b.z⟩⟩
instance : Sub Vec3 := ⟨fun a b => ⟨a.x - b.x, a.y - b.y, a.z - b.z⟩⟩
instance : Neg Vec3 := ⟨fun a => ⟨-a.x, -a.y, -a.z⟩⟩
instance : SMul ℝ Vec3 := ⟨fun c a => ⟨c * a.x, c * a.y, c * a.z⟩⟩
instance : Zero Vec3 := ⟨⟨0, 0, 0⟩⟩

/-- Dot product of two 3-vectors. -/
def dot (a b : Vec3) : ℝ := a.x * b.x + a.y * b.y + a.z * b.z

/-- Cross product (`np.cross`). -/
def cross (a b : Vec3) : Vec3 :=
  ⟨a.y * b.z - a.z * b.y, a.z * b.x - a.x * b.z, a.x * b.y - a.y * b.x⟩

/-- Euclidean norm (`np.linalg.norm`). -/
def norm (a : Vec3) : ℝ := Real.sqrt (dot a a)

/-- `v / np.linalg.norm(v)` (`transforms3d.utils.normalized_vector` and the
renormalization `gradient / np.linalg.norm(gradient)` in `RowlandTorus.normal`). -/
def normalize (a : Vec3) : Vec3 := (1 / a.norm) • a

@[simp] lemma add_def (a b : Vec3) : a + b = ⟨a.x + b.x, a.y + b.y, a.z + b.z⟩ := rfl
@[simp] lemma sub_def (a b : Vec3) : a - b = ⟨a.x - b.x, a.y - b.y, a.z - b.z⟩ := rfl
@[simp] lemma smul_def (c : ℝ) (a : Vec3) : c • a = ⟨c * a.x, c * a.y, c * a.z⟩ := rfl
@[simp] lemma zero_def : (0 : Vec3) = ⟨0, 0, 0⟩ := rfl

lemma ext_iff {a b : Vec3} : a = b ↔ a.x = b.x ∧ a.y = b.y ∧ a.z = b.z := by
  cases a; cases b; simp

lemma dot_self_nonneg (a : Vec3) : 0 ≤ dot a a := by
  unfold dot; nlinarith [sq_nonneg a.x, sq_nonneg a.y, sq_nonneg a.z]

lemma dot_self_pos {a : Vec3} (h : a ≠ 0) : 0 < dot a a := by
  rcases lt_or_eq_of_le (dot_self_nonneg a) with h' | h'
  · exact h'
  · exfalso; apply h
    have hx : a.x ^ 2 + a.y ^ 2 + a.z ^ 2 = 0 := by unfold dot at h'; nlinarith
    have hx0 : a.x = 0 := by nlinarith [sq_nonneg a.x, sq_nonneg a.y, sq_nonneg a.z]
    have hy0 : a.y = 0 := by nlinarith [sq_nonneg a.x, sq_nonneg a.y, sq_nonneg a.z]
    have hz0 : a.z = 0 := by nlinarith [sq_nonneg a.x, sq_nonneg a.y, sq_nonneg a.z]
    simp [ext_iff, hx0, hy0, hz0]

lemma norm_nonneg (a : Vec3) : 0 ≤ a.norm := Real.sqrt_nonneg _

lemma norm_pos {a : Vec3} (h : a ≠ 0) : 0 < a.norm :=
  Real.sqrt_pos.mpr (dot_self_pos h)

lemma norm_sq (a : Vec3) : a.norm ^ 2 = dot a a :=
  Real.sq_sqrt (dot_self_nonneg a)

lemma dot_smul_left (c : ℝ) (a b : Vec3) : dot (c • a) b = c * dot a b := by
  simp [dot]; ring

lemma norm_smul (c : ℝ) (a : Vec3) : (c • a).norm = |c| * a.norm := by
  unfold norm
  have : dot (c • a) (c • a) = c ^ 2 * dot a a := by simp [dot]; ring
  rw [this, Real.sqrt_mul (sq_nonneg c), Real.sqrt_sq_eq_abs]

lemma norm_normalize {a : Vec3} (h : a ≠ 0) : a.normalize.norm = 1 := by
  unfold normalize
  rw [norm_smul, abs_of_pos (one_div_pos.mpr (norm_pos h)), one_div,
    inv_mul_cancel₀ (ne_of_gt (norm_pos h))]

lemma dot_normalize_self {a : Vec3} : dot a.normalize a = (1 / a.norm) * dot a a := by
  unfold normalize; exact dot_smul_left _ _ _

end Vec3

/-- A 3×3 matrix given by its rows (matching `rot_mat = np.zeros((3,3));
rot_mat[0, :] = ...` in `LinearCCDArray.calculate_elempos`). -/
structure Mat3 where
  r0 : Vec3
  r1 : Vec3
  r2 : Vec3

namespace Mat3

/-- Matrix–vector product `np.einsum('...ij,...j', M, v)`. -/
def mulVec (M : Mat3) (v : Vec3) : Vec3 :=
  ⟨M.r0.dot v, M.r1.dot v, M.r2.dot v⟩

/-- Matrix transpose. -/
def transpose (M : Mat3) : Mat3 :=
  ⟨⟨M.r0.x, M.r1.x, M.r2.x⟩, ⟨M.r0.y, M.r1.y, M.r2.y⟩, ⟨M.r0.z, M.r1.z, M.r2.z⟩⟩

/-- Matrix product. -/
def mul (M N : Mat3) : Mat3 :=
  ⟨(N.transpose).mulVec M.r0, (N.transpose).mulVec M.r1, (N.transpose).mulVec M.r2⟩

/-- The identity matrix. -/
def one : Mat3 := ⟨⟨1, 0, 0⟩, ⟨0, 1, 0⟩, ⟨0, 0, 1⟩⟩

/-- Orthogonality: the transpose is a left inverse. -/
def IsOrtho (M : Mat3) : Prop := M.transpose.mul M = one

lemma mulVec_transpose_mulVec (M : Mat3) (h : M.IsOrtho) (v : Vec3) :
    M.transpose.mulVec (M.mulVec v) = v := by
  have h' := h
  unfold IsOrtho mul one at h'
  obtain ⟨h0, h1, h2⟩ := Vec3.ext_iff.mp (congrArg Mat3.r0 h')
  obtain ⟨h3, h4, h5⟩ := Vec3.ext_iff.mp (congrArg Mat3.r1 h')
  obtain ⟨h6, h7, h8⟩ := Vec3.ext_iff.mp (congrArg Mat3.r2 h')
  simp only [Mat3.transpose, Mat3.mulVec, Vec3.dot] at h0 h1 h2 h3 h4 h5 h6 h7 h8 ⊢
  refine Vec3.ext_iff.mpr ⟨?_, ?_, ?_⟩
  · linear_combination v.x * h0 + v.y * h1 + v.z * h2
  · linear_combination v.x * h3 + v.y * h4 + v.z * h5
  · linear_combination v.x * h6 + v.y * h7 + v.z * h8

/-- An orthogonal matrix preserves the dot product. -/
lemma dot_mulVec_mulVec (M : Mat3) (h : M.IsOrtho) (u v : Vec3) :
    (M.mulVec u).dot (M.mulVec v) = u.dot v := by
  have h' := h
  unfold IsOrtho mul one at h'
  obtain ⟨h0, h1, h2⟩ := Vec3.ext_iff.mp (congrArg Mat3.r0 h')
  obtain ⟨h3, h4, h5⟩ := Vec3.ext_iff.mp (congrArg Mat3.r1 h')
  obtain ⟨h6, h7, h8⟩ := Vec3.ext_iff.mp (congrArg Mat3.r2 h')
  simp only [Mat3.transpose, Mat3.mulVec, Vec3.dot] at h0 h1 h2 h3 h4 h5 h6 h7 h8 ⊢
  linear_combination (u.x * v.x) * h0 + (u.x * v.y + u.y * v.x) * h1 +
    (u.x * v.z + u.z * v.x) * h2 + (u.y * v.y) * h4 + (u.y * v.z + u.z * v.y) * h5 +
    (u.z * v.z) * h8

/-- An orthogonal matrix preserves the Euclidean norm. -/
lemma norm_mulVec (M : Mat3) (h : M.IsOrtho) (v : Vec3) :
    (M.mulVec v).norm = v.norm := by
  unfold Vec3.norm
  rw [dot_mulVec_mulVec M h]

lemma one_isOrtho : Mat3.one.IsOrtho := by
  unfold IsOrtho mul one transpose mulVec Vec3.dot
  norm_num

lemma mulVec_smul (M : Mat3) (c : ℝ) (v : Vec3) :
    M.mulVec (c • v) = c • M.mulVec v := by
  simp [mulVec, Vec3.dot, Vec3.ext_iff]; refine ⟨by ring, by ring, by ring⟩

end Mat3

/-! ### Error conditions

One constructor per distinguishable Python exception raised along the code
paths under verification. -/

/-- Exceptions that can escape the torus kernel:
* `signsMismatch` — `ValueError("f(a) and f(b) must have different signs")`,
  raised by `scipy.optimize.brentq` when the search interval does not bracket a
  sign change; this is the "no intersection" condition the placement layer
  string-matches on;
* `notConverged` — the generic `Exception('Intersection with torus not found.')`
  raised by `solve_quartic` when `brent_out.converged` is false;
* `notOnSurface` — `ValueError('Gradient vector field is only defined for
  points on torus surface.')` raised by `RowlandTorus.normal`;
* `ambiguousNormal` — `ValueError("Ambiguous normal at ...")` raised by
  `RowlandTorus.normal` at a zero-gradient point with `origin="raise"`;
* `indexErr` — the `IndexError` raised by `radii[1]` in
  `LinearCCDArray.calculate_elempos` when `radii` has fewer than two entries. -/
inductive KernelErr where
  | signsMismatch
  | notConverged
  | notOnSurface
  | ambiguousNormal
  | indexErr
  deriving DecidableEq

/-- The `origin` argument of `RowlandTorus.normal`: either the string sentinel
`"raise"` or a Euclidean 3-vector.  (The design notes reframe the Python
string-or-vector argument as this tagged choice.  In the Python signature the
parameter defaults to the vector `[-1, 0, 0]`.) -/
inductive OriginArg where
  | raiseErr
  | vec (v : Vec3)

/-! ### RowlandTorus -/

/-- `RowlandTorus(R, r, pos4d)`: major radius `R`, Rowland-circle radius `r`,
and the pose `pos4d` placing the local frame into the global frame.  Per the
data model a pose is rotation + translation with an orthonormal rotation block
and last row `(0,0,0,1)`, embedded here as the rotation block `rot`, the
translation `trans`, and the orthonormality invariant `orth`. -/
structure RowlandTorus where
  R : ℝ
  r : ℝ
  rot : Mat3
  trans : Vec3
  orth : rot.IsOrtho

namespace RowlandTorus

/-- Map a global-frame point into the torus's local frame: application of
`np.linalg.inv(self.pos4d)`, which for an orthonormal rotation block is the
transposed rotation applied to the translated point. -/
def toLocal (T : RowlandTorus) (p : Vec3) : Vec3 :=
  T.rot.transpose.mulVec (p - T.trans)

/-- Map a local-frame point into the global frame: application of `self.pos4d`. -/
def fromLocal (T : RowlandTorus) (p : Vec3) : Vec3 :=
  T.rot.mulVec p + T.trans

lemma toLocal_fromLocal (T : RowlandTorus) (p : Vec3) :
    T.toLocal (T.fromLocal p) = p := by
  unfold toLocal fromLocal
  have h : T.rot.mulVec p + T.trans - T.trans = T.rot.mulVec p := by
    simp [Vec3.ext_iff]
  rw [h, Mat3.mulVec_transpose_mulVec _ T.orth]

/-- The quartic torus polynomial in local coordinates, the body of
`RowlandTorus.quartic` after the optional frame transformation:
`((xyz**2).sum(axis=-1) + R**2 - r**2)**2 - 4 * R**2 * (xyz[..., [0,2]]**2).sum(axis=-1)`. -/
def quarticFn (T : RowlandTorus) (p : Vec3) : ℝ :=
  (p.dot p + T.R ^ 2 - T.r ^ 2) ^ 2 - 4 * T.R ^ 2 * (p.x ^ 2 + p.z ^ 2)

/-- `RowlandTorus.quartic(xyz, transform)`: evaluate the quartic at a point,
first mapping it into the local frame when `transform` is true. -/
def quartic (T : RowlandTorus) (p : Vec3) (transform : Bool) : ℝ :=
  T.quarticFn (if transform then T.toLocal p else p)

/-- The analytic gradient of the quartic in local coordinates, as computed in
`RowlandTorus.normal`:
`factor = 4 * ((xyz**2).sum(axis=-1) + R**2 - r**2)`;
`dFdx = factor * x - 8 * R**2 * x`, `dFdy = factor * y`,
`dFdz = factor * z - 8 * R**2 * z`. -/
def grad (T : RowlandTorus) (p : Vec3) : Vec3 :=
  ⟨4 * (p.dot p + T.R ^ 2 - T.r ^ 2) * p.x - 8 * T.R ^ 2 * p.x,
   4 * (p.dot p + T.R ^ 2 - T.r ^ 2) * p.y,
   4 * (p.dot p + T.R ^ 2 - T.r ^ 2) * p.z - 8 * T.R ^ 2 * p.z⟩

end RowlandTorus

/-- The root `scipy.optimize.brentq(f, a, b)` converges to when the bracketing
precondition holds: some root of `f` inside `[a, b]` (Brent's method converges
to a root of the bracketed sign change).  When no root exists the value is
irrelevant (that call raises instead; see `brentq`). -/
def brentqRoot (f : ℝ → ℝ) (a b : ℝ) : ℝ :=
  have : Decidable (∃ x ∈ Set.Icc a b, f x = 0) := Classical.propDecidable _
  if h : ∃ x ∈ Set.Icc a b, f x = 0 then h.choose else a

lemma brentqRoot_mem_isRoot (f : ℝ → ℝ) (a b : ℝ) (h : ∃ x ∈ Set.Icc a b, f x = 0) :
    brentqRoot f a b ∈ Set.Icc a b ∧ f (brentqRoot f a b) = 0 := by
  unfold brentqRoot
  simp only [h, dite_true]
  exact ⟨h.choose_spec.1, h.choose_spec.2⟩

/-- `scipy.optimize.brentq(f, a, b, full_output=True)`: raises
`ValueError("f(a) and f(b) must have different signs")` when the endpoint
values have the same (nonzero) sign, i.e. `f(a)*f(b) > 0`; otherwise converges
and returns a bracketed root.  (The scipy implementation reports
`converged=True` whenever it returns normally, so the follow-up
`Exception('Intersection with torus not found.')` branch of `solve_quartic` is
unreachable and `notConverged` is never produced.) -/
def brentq (f : ℝ → ℝ) (a b : ℝ) : Except KernelErr ℝ :=
  if 0 < f a * f b then .error .signsMismatch else .ok (brentqRoot f a b)

namespace RowlandTorus

/-- `RowlandTorus.solve_quartic(x=None, y=y, z=z, interval, transform)`:
root-find the quartic restricted to the 1-D slice with `y` and `z` fixed and
`x` free, over `interval`, via `scipy.optimize.brentq`.  (The source allows any
one of the three coordinates to be the free one; every call in this module
fixes `y` and `z` and solves for `x`, which is the slice embedded here.) -/
def solve_quartic (T : RowlandTorus) (y z : ℝ) (interval : ℝ × ℝ)
    (transform : Bool) : Except KernelErr ℝ :=
  brentq (fun x => T.quartic ⟨x, y, z⟩ transform) interval.1 interval.2

/-- `RowlandTorus.normal(xyz, origin)`: transform the point into the local
frame, check that it is on the surface (the source checks
`np.allclose(quartic / R**4, 0.)`, a floating-point tolerance test embedded
here as exact vanishing of the quartic), form the analytic gradient, resolve a
zero gradient through `origin` (raise, or substitute the supplied vector),
renormalize, and transform back to the global frame. -/
def normal (T : RowlandTorus) (p : Vec3) (origin : OriginArg) :
    Except KernelErr Vec3 :=
  let xyz := T.toLocal p
  if T.quarticFn xyz ≠ 0 then .error .notOnSurface
  else
    let g := T.grad xyz
    if |g.x| + |g.y| + |g.z| = 0 then
      match origin with
      | .raiseErr => .error .ambiguousNormal
      | .vec v => .ok (T.rot.mulVec v.normalize)
    else .ok (T.rot.mulVec g.normalize)

/-- `RowlandTorus.xyz_from_radiusangle(radius, angle, interval)`:
`y = radius*cos(angle)`, `z = radius*sin(angle)`, solve the quartic for `x`
over `interval` (with `transform=False`), and return the global-frame point. -/
def xyz_from_radiusangle (T : RowlandTorus) (radius angle : ℝ)
    (interval : ℝ × ℝ) : Except KernelErr Vec3 :=
  let y := radius * Real.cos angle
  let z := radius * Real.sin angle
  match T.solve_quartic y z interval false with
  | .error e => .error e
  | .ok x => .ok (T.fromLocal ⟨x, y, z⟩)

end RowlandTorus

/-! ### Numeric helpers -/

/-- Python / numpy float modulo `x % y` for a positive modulus:
`x - y * floor(x / y)`. -/
def fmod (x y : ℝ) : ℝ := x - y * ⌊x / y⌋

lemma fmod_nonneg (x : ℝ) {y : ℝ} (hy : 0 < y) : 0 ≤ fmod x y := by
  unfold fmod
  have h := Int.floor_le (x / y)
  have := (mul_le_mul_left hy).mpr h
  rw [mul_div_cancel₀ x (ne_of_gt hy)] at this
  linarith

lemma fmod_lt (x : ℝ) {y : ℝ} (hy : 0 < y) : fmod x y < y := by
  unfold fmod
  have h := Int.lt_floor_add_one (x / y)
  have := (mul_lt_mul_left hy).mpr h
  rw [mul_add, mul_one] at this
  have hx : x < y * ⌊x / y⌋ + y := by
    calc x = y * (x / y) := by field_simp
    _ < y * ⌊x / y⌋ + y := this
  linarith

lemma fmod_eq_self {x y : ℝ} (h0 : 0 ≤ x) (hxy : x < y) : fmod x y = x := by
  have hy : 0 < y := lt_of_le_of_lt h0 hxy
  unfold fmod
  have : ⌊x / y⌋ = 0 := by
    rw [Int.floor_eq_zero_iff]
    constructor
    · positivity
    · rw [div_lt_one hy]; exact hxy
  rw [this]
  simp

/-- Modelled from the spec: `anglediff` (in `marxs.math.utils`, not under
`src/`) — "the counterclockwise angular span from `phi[0]` to `phi[1]`",
"interpreted counterclockwise from `phi1` to `phi2`, possibly wrapping through
zero"; a difference already describing a span in `[0, 2π]` is kept as is
(the default grating-array coverage `phi=[0, 2π]` spans the full circle),
anything else wraps modulo `2π`. -/
def anglediff (phi : ℝ × ℝ) : ℝ :=
  if phi.2 - phi.1 < 0 ∨ 2 * π < phi.2 - phi.1
  then fmod (phi.2 - phi.1) (2 * π) else phi.2 - phi.1

lemma anglediff_nonneg (phi : ℝ × ℝ) : 0 ≤ anglediff phi := by
  unfold anglediff
  split
  · exact fmod_nonneg _ (by positivity)
  · rename_i h
    push_neg at h
    linarith [h.1]

lemma anglediff_le_two_pi (phi : ℝ × ℝ) : anglediff phi ≤ 2 * π := by
  unfold anglediff
  split
  · exact le_of_lt (fmod_lt _ (by positivity))
  · rename_i h
    push_neg at h
    exact h.2

/-- Modelled from the spec: `np.arctan2(z, y)` — the polar angle of the
point `(y, z)`, embedded as the complex argument (range `(-π, π]`). -/
def atan2 (z y : ℝ) : ℝ := Complex.arg ⟨y, z⟩

/-- Modelled from the spec: `ex2vec_fix` (in `marxs.math.rotations`, not under
`src/`) — "Find the rotation between [1, 0, 0] and the new normal", keeping
"the local y-axis (groove direction) ... parallel to the global y-axis as
closely as possible given the normal constraint": the x-row is the unit vector
along `v`, the y-row the normalized component of `e` orthogonal to it, and the
z-row their cross product. -/
def ex2vec_fix (v e : Vec3) : Mat3 :=
  let xrow := v.normalize
  let yrow := (e - (e.dot xrow) • xrow).normalize
  ⟨xrow, yrow, Vec3.cross xrow yrow⟩

/-! ### design_tilted_torus -/

/-- `r = f / (2. * np.cos(alpha))` in `design_tilted_torus`. -/
def dtt_r (f alpha : ℝ) : ℝ := f / (2 * Real.cos alpha)

/-- `CatH = r * np.sqrt(2 * (1 + np.cos(2 * (beta - alpha))))`. -/
def dtt_CatH (f alpha beta : ℝ) : ℝ :=
  dtt_r f alpha * Real.sqrt (2 * (1 + Real.cos (2 * (beta - alpha))))

/-- `HF = np.sqrt(f**2 + CatH**2 - 2 * f * CatH * np.cos(beta))`. -/
def dtt_HF (f alpha beta : ℝ) : ℝ :=
  Real.sqrt (f ^ 2 + dtt_CatH f alpha beta ^ 2 -
    2 * f * dtt_CatH f alpha beta * Real.cos beta)

/-- `gamma = np.arccos(HF / (2 * r)) * (np.sign(alpha) or 1)`; the second
factor is `-1` for `alpha < 0` and `+1` otherwise (`np.sign(0.) = 0.` is falsy,
so `alpha == 0` yields `+1`). -/
def dtt_gamma (f alpha beta : ℝ) : ℝ :=
  Real.arccos (dtt_HF f alpha beta / (2 * dtt_r f alpha)) *
    (if alpha < 0 then -1 else 1)

/-- `R = f / np.sin(pi - alpha - (alpha + gamma)) * np.sin(alpha + gamma) - r`. -/
def dtt_R (f alpha beta : ℝ) : ℝ :=
  f / Real.sin (π - alpha - (alpha + dtt_gamma f alpha beta)) *
    Real.sin (alpha + dtt_gamma f alpha beta) - dtt_r f alpha

/-- `FCt = f / np.sin(pi - alpha - (alpha + gamma)) * np.sin(alpha)`. -/
def dtt_FCt (f alpha beta : ℝ) : ℝ :=
  f / Real.sin (π - alpha - (alpha + dtt_gamma f alpha beta)) * Real.sin alpha

/-- `transforms3d.axangles.axangle2mat([0, 0, -1], theta)`: the rotation about
the axis `(0, 0, -1)` by `theta`. -/
def rotAboutNegZ (θ : ℝ) : Mat3 :=
  ⟨⟨Real.cos θ, Real.sin θ, 0⟩, ⟨-Real.sin θ, Real.cos θ, 0⟩, ⟨0, 0, 1⟩⟩

lemma rotAboutNegZ_isOrtho (θ : ℝ) : (rotAboutNegZ θ).IsOrtho := by
  unfold Mat3.IsOrtho rotAboutNegZ Mat3.mul Mat3.transpose Mat3.mulVec Mat3.one Vec3.dot
  simp only [Mat3.mk.injEq, Vec3.mk.injEq]
  refine ⟨⟨?_, ?_, ?_⟩, ⟨?_, ?_, ?_⟩, ⟨?_, ?_, ?_⟩⟩ <;>
    nlinarith [Real.sin_sq_add_cos_sq θ]

/-- `design_tilted_torus(f, alpha, beta)`: returns `(R, r, pos4d)` with
`pos4d = transforms3d.affines.compose([x_Ct, y_Ct, z_Ct], orientation, ones)`,
`orientation = axangle2mat([0, 0, -1], pi/2 - alpha - gamma)`,
`x_Ct = FCt * cos(alpha + gamma)`, `y_Ct = FCt * sin(alpha + gamma)`,
`z_Ct = 0`. -/
def design_tilted_torus (f alpha beta : ℝ) : RowlandTorus :=
  { R := dtt_R f alpha beta
    r := dtt_r f alpha
    rot := rotAboutNegZ (π / 2 - alpha - dtt_gamma f alpha beta)
    trans := ⟨dtt_FCt f alpha beta * Real.cos (alpha + dtt_gamma f alpha beta),
              dtt_FCt f alpha beta * Real.sin (alpha + dtt_gamma f alpha beta), 0⟩
    orth := rotAboutNegZ_isOrtho _ }

/-! ### Element placement -/

/-- An element pose produced by `transforms3d.affines.compose(T, R, np.ones(3))`:
rotation block `R` and translation `T` (unit zoom). -/
structure Pose4 where
  rot : Mat3
  trans : Vec3

/-- Errors escaping `calculate_elempos`:
* `placement xr` — `ElementPlacementError('No intersection with Rowland torus
  in range {xr}')`, the re-labeled root-finding failure;
* `kernel e` — any other exception, propagated unchanged. -/
inductive PlacerErr where
  | placement (x_range : ℝ × ℝ)
  | kernel (e : KernelErr)

/-- Run a fallible computation over each list entry in order, stopping at the
first exception, collecting the results (the Python `for` loops appending to
`pos4d`). -/
def exceptMapList {α β ε : Type} (f : α → Except ε β) : List α → Except ε (List β)
  | [] => .ok []
  | a :: as =>
    match f a with
    | .error e => .error e
    | .ok b =>
      match exceptMapList f as with
      | .error e => .error e
      | .ok bs => .ok (b :: bs)

/-- As `exceptMapList`, for a body producing a list per entry (the nested
radius/angle loops of `GratingArrayStructure.calculate_elempos`). -/
def exceptConcatList {α β ε : Type} (f : α → Except ε (List β)) :
    List α → Except ε (List β)
  | [] => .ok []
  | a :: as =>
    match f a with
    | .error e => .error e
    | .ok bs =>
      match exceptConcatList f as with
      | .error e => .error e
      | .ok cs => .ok (bs ++ cs)

/-- `int(np.ceil((radius[1] - radius[0]) / d_element))`
(`LinearCCDArray.max_elements_on_radius`, shared by both placer variants). -/
def maxElementsOnRadius (radius : ℝ × ℝ) (d_element : ℝ) : ℤ :=
  ⌈(radius.2 - radius.1) / d_element⌉

/-- `np.mean(radius) + np.arange(- n / 2 + 0.5, n / 2 + 0.5) * d_element`
(`LinearCCDArray.distribute_elements_on_radius`, shared by both placer
variants): `n` evenly spaced element-center radii centered on the midpoint of
the radius range. -/
def distributeRadii (radius : ℝ × ℝ) (d_element : ℝ) : List ℝ :=
  let n := maxElementsOnRadius radius d_element
  (List.range n.toNat).map
    (fun (k : ℕ) =>
      (radius.1 + radius.2) / 2 + (-(n : ℝ) / 2 + 1 / 2 + (k : ℝ)) * d_element)

/-- The rotation block built row-by-row in `LinearCCDArray.calculate_elempos`:
`rot_mat[0, :] = facet_normal`;
`rot_mat[1, :] = line - rot_mat[0, :] * np.dot(rot_mat[0, :], line)` (the part
of the line of centers orthogonal to the facet normal, not renormalized);
`rot_mat[2, :] = normalized_vector(np.cross(rot_mat[0, :], rot_mat[1, :]))`. -/
def linearRotMat (facet_normal line : Vec3) : Mat3 :=
  ⟨facet_normal,
   line - (facet_normal.dot line) • facet_normal,
   (Vec3.cross facet_normal
     (line - (facet_normal.dot line) • facet_normal)).normalize⟩

/-- `LinearCCDArray(rowland, d_element, x_range, radius, phi)`: a 1-D array of
elements along the direction `phi` (a single angle for this variant). -/
structure LinearCCDArray where
  rowland : RowlandTorus
  d_element : ℝ
  x_range : ℝ × ℝ
  radius : ℝ × ℝ
  phi : ℝ

namespace LinearCCDArray

/-- The `__init__` validation: `radius[1] > radius[0]` and
`np.max(np.abs(phi)) <= 10` (radians expected, not degrees). -/
def valid (c : LinearCCDArray) : Prop :=
  c.radius.1 < c.radius.2 ∧ |c.phi| ≤ 10

/-- The class attribute `tangent_to_torus = True` of `LinearCCDArray`:
elements are tangent to the torus at their center. -/
def tangent_to_torus : Bool := true

/-- `LinearCCDArray.max_elements_on_radius`. -/
def max_elements_on_radius (c : LinearCCDArray) : ℤ :=
  maxElementsOnRadius c.radius c.d_element

/-- `LinearCCDArray.distribute_elements_on_radius`. -/
def distribute_elements_on_radius (c : LinearCCDArray) : List ℝ :=
  distributeRadii c.radius c.d_element

/-- One iteration of the `for r in radii` loop of
`LinearCCDArray.calculate_elempos`: element center from
`xyz_from_radiusangle`, facet normal from the torus normal field (this variant
has `tangent_to_torus = True`; the `else` branch would use the position
itself), rotation rows `[facet_normal; line − (facet_normal·line)
facet_normal; normalized cross]`. -/
def facetPose (c : LinearCCDArray) (line : Vec3) (r : ℝ) : Except KernelErr Pose4 :=
  match c.rowland.xyz_from_radiusangle r c.phi c.x_range with
  | .error e => .error e
  | .ok facet_pos =>
    match (if tangent_to_torus then c.rowland.normal facet_pos (.vec ⟨-1, 0, 0⟩)
           else .ok facet_pos) with
    | .error e => .error e
    | .ok facet_normal =>
      .ok ⟨linearRotMat facet_normal line, facet_pos⟩

/-- The body of the `try` block of `LinearCCDArray.calculate_elempos`: `radii`
from the radial distribution, the line of centers from the points at
`radii[1]` and `radii[0]` (an `IndexError` here propagates uncaught), then one
pose per radius. -/
def calculate_elempos_raw (c : LinearCCDArray) : Except KernelErr (List Pose4) :=
  let radii := c.distribute_elements_on_radius
  match radii.get? 1, radii.get? 0 with
  | some r1, some r0 =>
    match c.rowland.xyz_from_radiusangle r1 c.phi c.x_range with
    | .error e => .error e
    | .ok p1 =>
      match c.rowland.xyz_from_radiusangle r0 c.phi c.x_range with
      | .error e => .error e
      | .ok p0 =>
        exceptMapList (c.facetPose ((p1 - p0).normalize)) radii
  | _, _ => .error .indexErr

/-- `LinearCCDArray.calculate_elempos`: the `try`/`except ValueError` wrapper —
a `ValueError` whose message contains `'f(a) and f(b) must have different
signs'` is re-raised as
`ElementPlacementError('No intersection with Rowland torus in range
{x_range}')`; anything else is re-raised unchanged. -/
def calculate_elempos (c : LinearCCDArray) : Except PlacerErr (List Pose4) :=
  match c.calculate_elempos_raw with
  | .ok l => .ok l
  | .error .signsMismatch => .error (.placement c.x_range)
  | .error e => .error (.kernel e)

end LinearCCDArray

/-- `GratingArrayStructure(rowland, d_element, x_range, radius, phi)`: grating
facets tiled over radii and, at each radius, over the arc `phi` (a pair of
bounding angles for this variant). -/
structure GratingArrayStructure where
  rowland : RowlandTorus
  d_element : ℝ
  x_range : ℝ × ℝ
  radius : ℝ × ℝ
  phi : ℝ × ℝ

namespace GratingArrayStructure

/-- The `__init__` validation: `np.min(radius) >= 0` (this subclass), plus the
inherited `radius[1] > radius[0]` and `np.max(np.abs(phi)) <= 10`. -/
def valid (c : GratingArrayStructure) : Prop :=
  0 ≤ min c.radius.1 c.radius.2 ∧ c.radius.1 < c.radius.2 ∧
    max |c.phi.1| |c.phi.2| ≤ 10

/-- The class attribute `tangent_to_torus = False` of `GratingArrayStructure`:
elements are perpendicular to perfectly focussed rays, not tangent to the
torus. -/
def tangent_to_torus : Bool := false

/-- Inherited `LinearCCDArray.max_elements_on_radius`. -/
def max_elements_on_radius (c : GratingArrayStructure) : ℤ :=
  maxElementsOnRadius c.radius c.d_element

/-- Inherited `LinearCCDArray.distribute_elements_on_radius`. -/
def distribute_elements_on_radius (c : GratingArrayStructure) : List ℝ :=
  distributeRadii c.radius c.d_element

/-- `GratingArrayStructure.max_elements_on_arc`:
`radius * anglediff(phi) // d_element`. -/
def max_elements_on_arc (c : GratingArrayStructure) (radius : ℝ) : ℤ :=
  ⌊radius * anglediff c.phi / c.d_element⌋

/-- `GratingArrayStructure.distribute_elements_on_arc`: the element count `n`
is taken at the inner edge `radius - d_element/2`; the `n` centers are spaced
with equal gaps `d_between` at both ends and between elements, and the result
is `(phi[0] + centerangles) % (2 pi)`. -/
def distribute_elements_on_arc (c : GratingArrayStructure) (radius : ℝ) : List ℝ :=
  let n := c.max_elements_on_arc (radius - c.d_element / 2)
  let element_angle := c.d_element / (2 * π * radius)
  let d_between := (anglediff c.phi - n * element_angle) / ((n : ℝ) + 1)
  (List.range n.toNat).map
    (fun (k : ℕ) => fmod (c.phi.1 + (d_between + element_angle / 2 +
      (k : ℝ) * (d_between + element_angle))) (2 * π))

/-- One iteration of the inner `for a in angles` loop of
`GratingArrayStructure.calculate_elempos`: element center from
`xyz_from_radiusangle`; this variant has `tangent_to_torus = False`, so the
element normal is the element position itself (the `if` branch would use the
torus normal field); rotation from `ex2vec_fix(element_normal, e_y)` keeping
grooves parallel to the global y-axis. -/
def elemPose (c : GratingArrayStructure) (r a : ℝ) : Except KernelErr Pose4 :=
  match c.rowland.xyz_from_radiusangle r a c.x_range with
  | .error e => .error e
  | .ok element_pos =>
    match (if tangent_to_torus then c.rowland.normal element_pos (.vec ⟨-1, 0, 0⟩)
           else .ok element_pos) with
    | .error e => .error e
    | .ok element_normal =>
      .ok ⟨ex2vec_fix element_normal ⟨0, 1, 0⟩, element_pos⟩

/-- `GratingArrayStructure.calculate_elempos`: nested loops over radii and
angles.  Note this override has **no** `try`/`except`: kernel exceptions
propagate unchanged, so they are embedded via `PlacerErr.kernel` only. -/
def calculate_elempos (c : GratingArrayStructure) : Except PlacerErr (List Pose4) :=
  match exceptConcatList
      (fun r => exceptMapList (fun a => c.elemPose r a)
        (c.distribute_elements_on_arc r))
      c.distribute_elements_on_radius with
  | .ok l => .ok l
  | .error e => .error (.kernel e)

end GratingArrayStructure

/-! ### Concrete instances used by witnesses -/

/-- A concrete torus: `RowlandTorus(R=2, r=1)` with the identity pose. -/
def T0 : RowlandTorus := ⟨2, 1, Mat3.one, ⟨0, 0, 0⟩, Mat3.one_isOrtho⟩

/-- A concrete degenerate torus: `RowlandTorus(R=1, r=1)` (self-intersecting,
`R == r`) with the identity pose. -/
def T1 : RowlandTorus := ⟨1, 1, Mat3.one, ⟨0, 0, 0⟩, Mat3.one_isOrtho⟩

/-! ### Claim C8 -/

/-- **C8.** `design_tilted_torus(f, alpha, beta)` computes the Rowland-circle
radius as `r = f / (2 cos alpha)`, and the sign of the derived angle `gamma`
is forced to equal the sign of `alpha`, with `alpha == 0` treated as positive
sign (+1): `gamma` is its own absolute value times the forced sign factor,
which is `-1` exactly when `alpha < 0`. -/
theorem C8_design_tilted_torus_r_gamma_sign (f alpha beta : ℝ) :
    (design_tilted_torus f alpha beta).r = f / (2 * Real.cos alpha) ∧
    dtt_gamma f alpha beta =
      |dtt_gamma f alpha beta| * (if alpha < 0 then -1 else 1) ∧
    (0 ≤ alpha → 0 ≤ dtt_gamma f alpha beta) ∧
    (alpha < 0 → dtt_gamma f alpha beta ≤ 0) := by
  have harc : 0 ≤ Real.arccos (dtt_HF f alpha beta / (2 * dtt_r f alpha)) :=
    Real.arccos_nonneg _
  refine ⟨rfl, ?_, ?_, ?_⟩
  · unfold dtt_gamma
    by_cases h : alpha < 0
    · simp only [h, if_true]
      rw [abs_mul, abs_of_nonneg harc]
      norm_num
    · simp only [h, if_false]
      rw [abs_mul, abs_of_nonneg harc]
      norm_num
  · intro h
    unfold dtt_gamma
    rw [if_neg (not_lt.mpr h)]
    linarith
  · intro h
    unfold dtt_gamma
    rw [if_pos h]
    nlinarith

/-! ### Claim C9 -/

/-- Sum of an affine sequence over `List.range`. -/
lemma range_map_affine_sum (a d : ℝ) :
    ∀ n : ℕ, ((List.range n).map (fun (k : ℕ) => a + (k : ℝ) * d)).sum =
      n * a + n * (n - 1) / 2 * d := by
  intro n
  induction n with
  | zero => simp
  | succ m ih =>
    rw [List.range_succ, List.map_append, List.sum_append, ih]
    push_cast
    simp
    ring

/-- **C9.** `distribute_elements_on_radius` returns exactly
`n = ceil((radius[1]-radius[0])/d_element)` element-center radii, centered on
the midpoint of the radius range (their sum is `n` times the midpoint) and
evenly spaced by `d_element`; in particular for `radius=[-5,5]`,
`d_element=2` it returns the 5 values `[-4,-2,0,2,4]`. -/
theorem C9_distribute_elements_on_radius :
    (∀ c : LinearCCDArray, 0 < c.d_element → c.radius.1 < c.radius.2 →
      ((c.distribute_elements_on_radius.length : ℤ) =
        ⌈(c.radius.2 - c.radius.1) / c.d_element⌉ ∧
       List.Chain' (fun s t => t - s = c.d_element)
         c.distribute_elements_on_radius ∧
       c.distribute_elements_on_radius.sum =
         c.distribute_elements_on_radius.length *
           ((c.radius.1 + c.radius.2) / 2))) ∧
    distributeRadii (-5, 5) 2 = [-4, -2, 0, 2, 4] := by
  constructor
  · intro c hd hr
    have hpos : 0 < (c.radius.2 - c.radius.1) / c.d_element := by
      apply div_pos <;> linarith
    simp only [LinearCCDArray.distribute_elements_on_radius, distributeRadii,
      maxElementsOnRadius]
    generalize hn : ⌈(c.radius.2 - c.radius.1) / c.d_element⌉ = n
    have hceil : (0 : ℤ) ≤ n := hn ▸ Int.ceil_nonneg (le_of_lt hpos)
    have hcast : ((n.toNat : ℕ) : ℝ) = (n : ℝ) := by
      exact_mod_cast congrArg (Int.cast : ℤ → ℝ) (Int.toNat_of_nonneg hceil)
    refine ⟨?_, ?_, ?_⟩
    · simp [Int.toNat_of_nonneg hceil]
    · rw [List.chain'_map]
      cases hN : n.toNat with
      | zero => simp
      | succ N =>
        rw [List.chain'_range_succ]
        intro k hk
        push_cast
        ring
    · have hfun : (fun (k : ℕ) =>
            (c.radius.1 + c.radius.2) / 2 +
              (-(n : ℝ) / 2 + 1 / 2 + (k : ℝ)) * c.d_element) =
          (fun (k : ℕ) =>
            ((c.radius.1 + c.radius.2) / 2 +
              (-(n : ℝ) / 2 + 1 / 2) * c.d_element) + (k : ℝ) * c.d_element) := by
        funext k; ring
      rw [hfun, range_map_affine_sum, List.length_map, List.length_range, hcast]
      ring
  · simp only [distributeRadii, maxElementsOnRadius]
    have hceil : ⌈((5 : ℝ) - (-5)) / 2⌉ = (5 : ℤ) := by
      have h5 : ((5 : ℝ) - (-5)) / 2 = ((5 : ℤ) : ℝ) := by norm_num
      rw [h5, Int.ceil_intCast]
    rw [hceil]
    have h5n : Int.toNat 5 = 5 := rfl
    rw [h5n]
    norm_num [List.range_succ]

/-- A concrete `LinearCCDArray(T0, d_element=2, x_range=(0,1), radius=(-5,5),
phi=0)`. -/
def C9cfg : LinearCCDArray := ⟨T0, 2, (0, 1), (-5, 5), 0⟩

/-- Witness for C9 at `radius=[-5,5]`, `d_element=2`. -/
theorem C9_witness :
    (0 : ℝ) < 2 ∧ (-5 : ℝ) < 5 ∧
    List.Chain' (fun s t => t - s = (2 : ℝ)) (distributeRadii (-5, 5) 2) ∧
    distributeRadii (-5, 5) 2 = [-4, -2, 0, 2, 4] := by
  have h := C9_distribute_elements_on_radius
  exact ⟨by norm_num, by norm_num,
    (h.1 C9cfg (by norm_num [C9cfg]) (by norm_num [C9cfg])).2.1, h.2⟩

/-! ### Claim C7 -/

/-- **C7.** `solve_quartic` fails with the "no intersection" condition (the
`ValueError` from the bracketing root-finder) whenever the search interval
does not bracket a root of the quartic restricted to the 1-D slice — the
quartic having the same (nonzero) sign at both interval endpoints — and this
failure is a condition distinct from the other failure conditions of the
kernel. -/
theorem C7_solve_quartic_no_intersection (T : RowlandTorus) (y z : ℝ)
    (interval : ℝ × ℝ) (transform : Bool)
    (h : 0 < T.quartic ⟨interval.1, y, z⟩ transform *
      T.quartic ⟨interval.2, y, z⟩ transform) :
    T.solve_quartic y z interval transform = .error .signsMismatch ∧
    KernelErr.signsMismatch ≠ KernelErr.notConverged ∧
    KernelErr.signsMismatch ≠ KernelErr.notOnSurface ∧
    KernelErr.signsMismatch ≠ KernelErr.ambiguousNormal := by
  refine ⟨?_, by decide, by decide, by decide⟩
  unfold RowlandTorus.solve_quartic brentq
  rw [if_pos]
  exact h

/-- Witness for C7: for the torus `T0` (`R=2, r=1`, identity pose) the slice
`y=3, z=0` misses the torus tube entirely, so the interval `[0, 1]` cannot
bracket a root. -/
theorem C7_witness :
    0 < T0.quartic ⟨0, 3, 0⟩ false * T0.quartic ⟨1, 3, 0⟩ false ∧
    T0.solve_quartic 3 0 (0, 1) false = .error .signsMismatch := by
  have h : 0 < T0.quartic ⟨0, 3, 0⟩ false * T0.quartic ⟨1, 3, 0⟩ false := by
    norm_num [T0, RowlandTorus.quartic, RowlandTorus.quarticFn, Vec3.dot]
  exact ⟨h, (C7_solve_quartic_no_intersection T0 3 0 (0, 1) false h).1⟩

/-! ### Claim C6 -/

/-- **C6.** For a torus with `R == r`, `normal` at the exact torus center
(the global image of the local origin, where the raw gradient is the zero
vector) fails with the explicit ambiguity condition when the failure sentinel
is supplied in place of a fallback direction, and with a fallback 3-vector
supplied it returns that vector normalized and transformed to the global
frame (a unit vector) — neither case falls through to a silent default. -/
theorem C6_normal_degenerate_center (T : RowlandTorus) (hRr : T.R = T.r)
    (v : Vec3) (hv : v ≠ 0) :
    T.normal (T.fromLocal ⟨0, 0, 0⟩) .raiseErr = .error .ambiguousNormal ∧
    T.normal (T.fromLocal ⟨0, 0, 0⟩) (.vec v) = .ok (T.rot.mulVec v.normalize) ∧
    (T.rot.mulVec v.normalize).norm = 1 := by
  have h0 : T.toLocal (T.fromLocal ⟨0, 0, 0⟩) = ⟨0, 0, 0⟩ :=
    T.toLocal_fromLocal ⟨0, 0, 0⟩
  have hq : T.quarticFn ⟨0, 0, 0⟩ = 0 := by
    simp [RowlandTorus.quarticFn, Vec3.dot, hRr]
  have hg : T.grad ⟨0, 0, 0⟩ = ⟨0, 0, 0⟩ := by
    simp [RowlandTorus.grad, Vec3.dot]
  refine ⟨?_, ?_, ?_⟩
  · simp [RowlandTorus.normal, h0, hq, hg]
  · simp [RowlandTorus.normal, h0, hq, hg]
  · rw [Mat3.norm_mulVec _ T.orth, Vec3.norm_normalize hv]

/-- Witness for C6 on the degenerate torus `T1` (`R = r = 1`) with fallback
direction `(0, 0, 2)`, whose normalization is `(0, 0, 1)`. -/
theorem C6_witness :
    T1.R = T1.r ∧ (⟨0, 0, 2⟩ : Vec3) ≠ 0 ∧
    T1.normal (T1.fromLocal ⟨0, 0, 0⟩) .raiseErr = .error .ambiguousNormal ∧
    T1.normal (T1.fromLocal ⟨0, 0, 0⟩) (.vec ⟨0, 0, 2⟩) =
      .ok (T1.rot.mulVec (Vec3.normalize ⟨0, 0, 2⟩)) ∧
    (T1.rot.mulVec (Vec3.normalize ⟨0, 0, 2⟩)).norm = 1 ∧
    Vec3.normalize ⟨0, 0, 2⟩ = ⟨0, 0, 1⟩ := by
  have hRr : T1.R = T1.r := rfl
  have hv : (⟨0, 0, 2⟩ : Vec3) ≠ 0 := by
    simp [Vec3.ext_iff]
  have h := C6_normal_degenerate_center T1 hRr ⟨0, 0, 2⟩ hv
  have hsqrt : Real.sqrt 4 = 2 := by
    rw [show (4 : ℝ) = 2 ^ 2 by norm_num, Real.sqrt_sq (by norm_num)]
  refine ⟨hRr, hv, h.1, h.2.1, h.2.2, ?_⟩
  norm_num [Vec3.normalize, Vec3.norm, Vec3.dot, hsqrt, Vec3.ext_iff]

/-! ### Claim C10 -/

/-- **C10.** For every `LinearCCDArray` whose radius span is positive but at
most `d_element` (so exactly one element-center radius is computed),
`calculate_elempos` hits the out-of-range access `radii[1]` while building the
line of centers: the raw loop body raises `IndexError`, which the
`except ValueError` clause does not catch, so the caller sees the uncaught
`IndexError` — not a one-element pose list and not an
`ElementPlacementError`. -/
theorem C10_single_radius_index_error (c : LinearCCDArray)
    (hd : 0 < c.d_element) (hr : c.radius.1 < c.radius.2)
    (hspan : c.radius.2 - c.radius.1 ≤ c.d_element) :
    c.distribute_elements_on_radius.length = 1 ∧
    c.calculate_elempos_raw = .error .indexErr ∧
    c.calculate_elempos = .error (.kernel .indexErr) := by
  have hq1 : ⌈(c.radius.2 - c.radius.1) / c.d_element⌉ = 1 := by
    rw [Int.ceil_eq_iff]
    constructor
    · push_cast
      have : 0 < (c.radius.2 - c.radius.1) / c.d_element := by
        apply div_pos <;> linarith
      linarith
    · push_cast
      exact (div_le_one hd).mpr hspan
  have hlen : c.distribute_elements_on_radius.length = 1 := by
    simp [LinearCCDArray.distribute_elements_on_radius, distributeRadii,
      maxElementsOnRadius, hq1]
  obtain ⟨a, ha⟩ := List.length_eq_one.mp hlen
  have hraw : c.calculate_elempos_raw = .error .indexErr := by
    simp only [LinearCCDArray.calculate_elempos_raw]
    rw [ha]
    rfl
  refine ⟨hlen, hraw, ?_⟩
  unfold LinearCCDArray.calculate_elempos
  rw [hraw]

/-- A concrete `LinearCCDArray(T0, d_element=1, x_range=(0,1), radius=(0,1),
phi=0)` whose radius span equals `d_element`. -/
def C10cfg : LinearCCDArray := ⟨T0, 1, (0, 1), (0, 1), 0⟩

/-- Witness for C10. -/
theorem C10_witness :
    0 < C10cfg.d_element ∧ C10cfg.radius.1 < C10cfg.radius.2 ∧
    C10cfg.radius.2 - C10cfg.radius.1 ≤ C10cfg.d_element ∧
    C10cfg.distribute_elements_on_radius.length = 1 ∧
    C10cfg.calculate_elempos_raw = .error .indexErr ∧
    C10cfg.calculate_elempos = .error (.kernel .indexErr) := by
  have h := C10_single_radius_index_error C10cfg (by norm_num [C10cfg])
    (by norm_num [C10cfg]) (by norm_num [C10cfg])
  exact ⟨by norm_num [C10cfg], by norm_num [C10cfg], by norm_num [C10cfg],
    h.1, h.2.1, h.2.2⟩

/-! ### Claim C1 -/

lemma abs3_eq_zero_iff {a b c : ℝ} : |a| + |b| + |c| = 0 ↔ a = 0 ∧ b = 0 ∧ c = 0 := by
  constructor
  · intro h
    have ha := abs_nonneg a
    have hb := abs_nonneg b
    have hc := abs_nonneg c
    refine ⟨abs_eq_zero.mp ?_, abs_eq_zero.mp ?_, abs_eq_zero.mp ?_⟩ <;> linarith
  · rintro ⟨ha, hb, hc⟩
    simp [ha, hb, hc]

/-- On the torus surface the analytic gradient of the quartic vanishes only at
the degenerate `R == r` center: for `0 < r ≤ R`, any surface point other than
the local origin of a degenerate torus has a nonzero gradient. -/
lemma grad_ne_zero (T : RowlandTorus) (p : Vec3) (hr : 0 < T.r) (hRr : T.r ≤ T.R)
    (hq : T.quarticFn p = 0) (hnd : ¬(T.R = T.r ∧ p = ⟨0, 0, 0⟩)) :
    T.grad p ≠ ⟨0, 0, 0⟩ := by
  intro hg
  have hR : 0 < T.R := lt_of_lt_of_le hr hRr
  unfold RowlandTorus.grad at hg
  rw [Vec3.mk.injEq] at hg
  obtain ⟨hgx, hgy, hgz⟩ := hg
  unfold Vec3.dot at hgx hgy hgz
  unfold RowlandTorus.quarticFn Vec3.dot at hq
  by_cases hxz : p.x = 0 ∧ p.z = 0
  · obtain ⟨hx, hz⟩ := hxz
    have h1 : (p.y * p.y + T.R ^ 2 - T.r ^ 2) ^ 2 = 0 := by
      rw [hx, hz] at hq
      linear_combination hq
    have h2 : p.y * p.y + T.R ^ 2 - T.r ^ 2 = 0 :=
      pow_eq_zero_iff two_ne_zero |>.mp h1
    have hyy : p.y * p.y = 0 := by nlinarith
    have hy : p.y = 0 := mul_self_eq_zero.mp hyy
    have hRle : T.R ≤ T.r := by nlinarith
    exact hnd ⟨le_antisymm hRle hRr, Vec3.ext_iff.mpr ⟨hx, hy, hz⟩⟩
  · have hfac : p.x * p.x + p.y * p.y + p.z * p.z + T.R ^ 2 - T.r ^ 2
        = 2 * T.R ^ 2 := by
      rcases not_and_or.mp hxz with hx | hz
      · have h4 : (4 * (p.x * p.x + p.y * p.y + p.z * p.z + T.R ^ 2 - T.r ^ 2)
            - 8 * T.R ^ 2) * p.x = 0 := by linear_combination hgx
        rcases mul_eq_zero.mp h4 with h | h
        · linarith
        · exact absurd h hx
      · have h4 : (4 * (p.x * p.x + p.y * p.y + p.z * p.z + T.R ^ 2 - T.r ^ 2)
            - 8 * T.R ^ 2) * p.z = 0 := by linear_combination hgz
        rcases mul_eq_zero.mp h4 with h | h
        · linarith
        · exact absurd h hz
    have hR2 : T.R ^ 2 ≠ 0 := by positivity
    have hy : p.y = 0 := by
      have h5 : T.R ^ 2 * p.y = 0 := by
        linear_combination hgy / 8 - (p.y / 2) * hfac
      exact (mul_eq_zero.mp h5).resolve_left hR2
    have hxz2 : p.x * p.x + p.z * p.z = T.R ^ 2 := by
      have h7 : T.R ^ 2 * (p.x * p.x + p.z * p.z - T.R ^ 2) = 0 := by
        linear_combination (-1 / 4) * hq +
          ((p.x * p.x + p.y * p.y + p.z * p.z + T.R ^ 2 - T.r ^ 2
            + 2 * T.R ^ 2) / 4) * hfac
      have := (mul_eq_zero.mp h7).resolve_left hR2
      linarith
    have hr2 : T.r ^ 2 = p.y * p.y := by
      linear_combination (-1) * hfac + hxz2
    rw [hy] at hr2
    nlinarith

/-- **C1.** For every point whose quartic residual vanishes (the embedded form
of "numerically indistinguishable from zero relative to `R^4`"), excluding the
`R == r` degenerate center, `normal` returns the renormalized analytic
gradient mapped to the global frame: a unit-length vector whose dot product
with the analytic gradient of the quartic (transformed to the global frame) is
positive, i.e. outward-pointing.  For any point whose quartic residual is not
zero, `normal` fails with the "point not on surface" condition. -/
theorem C1_normal_unit_outward_gradient (T : RowlandTorus) (p : Vec3)
    (o : OriginArg) (hr : 0 < T.r) (hRr : T.r ≤ T.R) :
    (T.quarticFn (T.toLocal p) = 0 →
      ¬(T.R = T.r ∧ T.toLocal p = ⟨0, 0, 0⟩) →
      (T.normal p o = .ok (T.rot.mulVec (T.grad (T.toLocal p)).normalize) ∧
       (T.rot.mulVec (T.grad (T.toLocal p)).normalize).norm = 1 ∧
       0 < (T.rot.mulVec (T.grad (T.toLocal p)).normalize).dot
         (T.rot.mulVec (T.grad (T.toLocal p))))) ∧
    (T.quarticFn (T.toLocal p) ≠ 0 → T.normal p o = .error .notOnSurface) := by
  constructor
  · intro hq hnd
    have hgne : T.grad (T.toLocal p) ≠ ⟨0, 0, 0⟩ :=
      grad_ne_zero T (T.toLocal p) hr hRr hq hnd
    have habs : ¬(|(T.grad (T.toLocal p)).x| + |(T.grad (T.toLocal p)).y| +
        |(T.grad (T.toLocal p)).z| = 0) := by
      intro h
      exact hgne (Vec3.ext_iff.mpr (abs3_eq_zero_iff.mp h))
    have hval : T.normal p o =
        .ok (T.rot.mulVec (T.grad (T.toLocal p)).normalize) := by
      simp only [RowlandTorus.normal, if_neg (not_not_intro hq), if_neg habs]
    refine ⟨hval, ?_, ?_⟩
    · rw [Mat3.norm_mulVec _ T.orth, Vec3.norm_normalize hgne]
    · rw [Mat3.dot_mulVec_mulVec _ T.orth, Vec3.dot_normalize_self]
      exact mul_pos (one_div_pos.mpr (Vec3.norm_pos hgne))
        (Vec3.dot_self_pos hgne)
  · intro hq
    simp only [RowlandTorus.normal, if_pos hq]

/-- Witness for C1: the point `(0, 0, 3)` on the torus `T0` (`R=2`, `r=1`,
identity pose). -/
theorem C1_witness :
    0 < T0.r ∧ T0.r ≤ T0.R ∧
    T0.quarticFn (T0.toLocal ⟨0, 0, 3⟩) = 0 ∧
    ¬(T0.R = T0.r ∧ T0.toLocal ⟨0, 0, 3⟩ = ⟨0, 0, 0⟩) ∧
    T0.normal ⟨0, 0, 3⟩ .raiseErr =
      .ok (T0.rot.mulVec (T0.grad (T0.toLocal ⟨0, 0, 3⟩)).normalize) ∧
    (T0.rot.mulVec (T0.grad (T0.toLocal ⟨0, 0, 3⟩)).normalize).norm = 1 ∧
    0 < (T0.rot.mulVec (T0.grad (T0.toLocal ⟨0, 0, 3⟩)).normalize).dot
      (T0.rot.mulVec (T0.grad (T0.toLocal ⟨0, 0, 3⟩))) := by
  have hr : 0 < T0.r := by norm_num [T0]
  have hRr : T0.r ≤ T0.R := by norm_num [T0]
  have htl : T0.toLocal ⟨0, 0, 3⟩ = ⟨0, 0, 3⟩ := by
    norm_num [T0, RowlandTorus.toLocal, Mat3.transpose, Mat3.one, Mat3.mulVec,
      Vec3.dot, Vec3.ext_iff]
  have hq : T0.quarticFn (T0.toLocal ⟨0, 0, 3⟩) = 0 := by
    rw [htl]
    norm_num [T0, RowlandTorus.quarticFn, Vec3.dot]
  have hnd : ¬(T0.R = T0.r ∧ T0.toLocal ⟨0, 0, 3⟩ = ⟨0, 0, 0⟩) := by
    rintro ⟨h, _⟩
    norm_num [T0] at h
  have h := (C1_normal_unit_outward_gradient T0 ⟨0, 0, 3⟩ .raiseErr hr hRr).1 hq hnd
  exact ⟨hr, hRr, hq, hnd, h.1, h.2.1, h.2.2⟩

/-! ### Claim C2 -/

/-- **C2.** For every radius > 0, if `xyz_from_radiusangle(radius, angle,
interval)` succeeds then transforming the returned global-frame point into the
torus's local frame and computing `sqrt(y^2+z^2)` and `atan2(z, y)` from its
`y` and `z` coordinates reproduces the input radius exactly and the input
angle modulo 2π. -/
theorem C2_xyz_from_radiusangle_roundtrip (T : RowlandTorus)
    (radius angle : ℝ) (interval : ℝ × ℝ) (P : Vec3) (hrad : 0 < radius)
    (h : T.xyz_from_radiusangle radius angle interval = .ok P) :
    Real.sqrt ((T.toLocal P).y ^ 2 + (T.toLocal P).z ^ 2) = radius ∧
    ((atan2 (T.toLocal P).z (T.toLocal P).y : ℝ) : Real.Angle) =
      (angle : Real.Angle) := by
  simp only [RowlandTorus.xyz_from_radiusangle] at h
  cases hs : T.solve_quartic (radius * Real.cos angle) (radius * Real.sin angle)
      interval false with
  | error e =>
    rw [hs] at h
    exact absurd h (by simp)
  | ok xr =>
    rw [hs] at h
    simp only [Except.ok.injEq] at h
    have htl : T.toLocal P =
        ⟨xr, radius * Real.cos angle, radius * Real.sin angle⟩ := by
      rw [← h, RowlandTorus.toLocal_fromLocal]
    rw [htl]
    constructor
    · have hsq : (radius * Real.cos angle) ^ 2 + (radius * Real.sin angle) ^ 2 =
          radius ^ 2 := by
        linear_combination radius ^ 2 * Real.sin_sq_add_cos_sq angle
      show Real.sqrt ((radius * Real.cos angle) ^ 2 +
        (radius * Real.sin angle) ^ 2) = radius
      rw [hsq, Real.sqrt_sq (le_of_lt hrad)]
    · show ((Complex.arg ⟨radius * Real.cos angle, radius * Real.sin angle⟩ : ℝ) :
        Real.Angle) = (angle : Real.Angle)
      have hc : (⟨radius * Real.cos angle, radius * Real.sin angle⟩ : ℂ) =
          (radius : ℂ) * ((Real.cos angle : ℂ) + (Real.sin angle : ℂ) * Complex.I) := by
        rw [Complex.mk_eq_add_mul_I]
        push_cast
        ring
      rw [hc, Complex.arg_real_mul _ hrad, ← Real.Angle.cos_coe,
        ← Real.Angle.sin_coe]
      exact Complex.arg_cos_add_sin_mul_I_coe_angle _

/-- The root found for the interval `[2, 3]` on the slice `y = cos 0,
z = sin 0` of `T0` (the quartic vanishes at `x = 2`). -/
def xroot23 : ℝ :=
  brentqRoot (fun x => T0.quartic ⟨x, 1 * Real.cos 0, 1 * Real.sin 0⟩ false) 2 3

/-- The point returned by `xyz_from_radiusangle(1, 0, [2, 3])` on `T0`. -/
def P23 : Vec3 := T0.fromLocal ⟨xroot23, 1 * Real.cos 0, 1 * Real.sin 0⟩

/-- `xyz_from_radiusangle(1, 0, [2, 3])` on `T0` succeeds, returning `P23`. -/
lemma xyz23_ok : T0.xyz_from_radiusangle 1 0 (2, 3) = .ok P23 := by
  have hf2 : T0.quartic ⟨2, 1 * Real.cos 0, 1 * Real.sin 0⟩ false = 0 := by
    norm_num [T0, RowlandTorus.quartic, RowlandTorus.quarticFn, Vec3.dot]
  simp only [RowlandTorus.xyz_from_radiusangle, RowlandTorus.solve_quartic,
    brentq, P23, xroot23]
  rw [if_neg]
  rw [hf2]
  norm_num

/-- Witness for C2: `radius=1`, `angle=0`, interval `[2,3]` on `T0`; the call
succeeds and the round-trip recovers radius 1 and angle 0. -/
theorem C2_witness :
    (0 : ℝ) < 1 ∧ T0.xyz_from_radiusangle 1 0 (2, 3) = .ok P23 ∧
    Real.sqrt ((T0.toLocal P23).y ^ 2 + (T0.toLocal P23).z ^ 2) = 1 ∧
    ((atan2 (T0.toLocal P23).z (T0.toLocal P23).y : ℝ) : Real.Angle) =
      ((0 : ℝ) : Real.Angle) := by
  have h := C2_xyz_from_radiusangle_roundtrip T0 1 0 (2, 3) P23 one_pos xyz23_ok
  exact ⟨one_pos, xyz23_ok, h.1, h.2⟩

/-! ### Claim C3 -/

/-- **C3.** For every valid `GratingArrayStructure` and every radius,
`distribute_elements_on_arc(radius)` never returns a center angle outside the
arc: every returned angle is `(phi[0] + ca) mod 2π` for some offset
`0 ≤ ca ≤ anglediff(phi)`; and it returns zero elements whenever
`radius * anglediff(phi) < d_element`. -/
theorem C3_distribute_elements_on_arc (c : GratingArrayStructure)
    (_hv : c.valid) (hd : 0 < c.d_element) (radius : ℝ) :
    (∀ θ ∈ c.distribute_elements_on_arc radius,
      ∃ ca, 0 ≤ ca ∧ ca ≤ anglediff c.phi ∧
        θ = fmod (c.phi.1 + ca) (2 * π)) ∧
    (radius * anglediff c.phi < c.d_element →
      c.distribute_elements_on_arc radius = []) := by
  have hΔ0 : 0 ≤ anglediff c.phi := anglediff_nonneg c.phi
  have hΔ2 : anglediff c.phi ≤ 2 * π := anglediff_le_two_pi c.phi
  constructor
  · intro θ hθ
    simp only [GratingArrayStructure.distribute_elements_on_arc,
      GratingArrayStructure.max_elements_on_arc, List.mem_map,
      List.mem_range] at hθ
    obtain ⟨k, hk, hθeq⟩ := hθ
    set Δ : ℝ := anglediff c.phi with hΔdef
    set n : ℤ := ⌊(radius - c.d_element / 2) * Δ / c.d_element⌋ with hndef
    set E : ℝ := c.d_element / (2 * π * radius) with hEdef
    have hn1 : (1 : ℤ) ≤ n := by omega
    have hkZ : (k : ℤ) < n := by omega
    have hn1R : (1 : ℝ) ≤ (n : ℝ) := by exact_mod_cast hn1
    have hkR : (k : ℝ) ≤ (n : ℝ) - 1 := by
      have h1 : (k : ℤ) + 1 ≤ n := hkZ
      have h2 : ((k : ℝ)) + 1 ≤ (n : ℝ) := by exact_mod_cast h1
      linarith
    have hk0 : (0 : ℝ) ≤ (k : ℝ) := Nat.cast_nonneg k
    have hnle : (n : ℝ) ≤ (radius - c.d_element / 2) * Δ / c.d_element :=
      Int.floor_le _
    have hnd2 : (n : ℝ) * c.d_element ≤ (radius - c.d_element / 2) * Δ :=
      (le_div_iff₀ hd).mp hnle
    have h6 : c.d_element ≤ (radius - c.d_element / 2) * Δ := by nlinarith
    have hrd : 0 < radius - c.d_element / 2 := by
      by_contra hcon
      push_neg at hcon
      have : (radius - c.d_element / 2) * Δ ≤ 0 :=
        mul_nonpos_of_nonpos_of_nonneg hcon hΔ0
      linarith
    have hrad0 : 0 < radius := by linarith
    have hEpos : 0 < E := by
      rw [hEdef]
      positivity
    have hΔpos : 0 < Δ := by
      rcases lt_or_eq_of_le hΔ0 with h | h
      · exact h
      · exfalso
        rw [← h] at h6
        simp at h6
        linarith
    have hE : E * (2 * π * radius) = c.d_element := by
      rw [hEdef]
      field_simp
    have hkey : 2 * π * ((n : ℝ) * E) ≤ Δ := by
      have h1 : (n : ℝ) * c.d_element ≤ radius * Δ := by nlinarith
      rw [← hE] at h1
      nlinarith [h1, hrad0]
    have hnE : (n : ℝ) * E < Δ := by
      have hnEpos : 0 < (n : ℝ) * E := mul_pos (by linarith) hEpos
      nlinarith [Real.pi_gt_three]
    have hnp1 : (0 : ℝ) < (n : ℝ) + 1 := by linarith
    set D : ℝ := (Δ - (n : ℝ) * E) / ((n : ℝ) + 1) with hDdef
    have hDmul : D * ((n : ℝ) + 1) = Δ - (n : ℝ) * E := by
      rw [hDdef]
      field_simp
    have hDpos : 0 < D := by
      rw [hDdef]
      apply div_pos (by linarith) hnp1
    refine ⟨D + E / 2 + (k : ℝ) * (D + E), ?_, ?_, hθeq.symm⟩
    · have hDE : 0 < D + E := by linarith
      have := mul_nonneg hk0 (le_of_lt hDE)
      linarith
    · have hq1 : (k : ℝ) * (D + E) ≤ ((n : ℝ) - 1) * (D + E) :=
        mul_le_mul_of_nonneg_right hkR (by linarith)
      nlinarith [hDmul, hnE, hEpos, hn1R, hq1, hDpos]
  · intro hlt
    simp only [GratingArrayStructure.distribute_elements_on_arc,
      GratingArrayStructure.max_elements_on_arc]
    have hx1 : (radius - c.d_element / 2) * anglediff c.phi / c.d_element < 1 := by
      rw [div_lt_one hd]
      nlinarith
    have hfl : ⌊(radius - c.d_element / 2) * anglediff c.phi / c.d_element⌋ ≤ 0 := by
      have := Int.floor_lt.mpr (by exact_mod_cast hx1 :
        (radius - c.d_element / 2) * anglediff c.phi / c.d_element < ((1 : ℤ) : ℝ))
      omega
    rw [Int.toNat_of_nonpos hfl]
    simp

/-- A concrete `GratingArrayStructure(T0, d_element=1, x_range=(0,1),
radius=(1,2), phi=(0,2))`. -/
def C3cfg : GratingArrayStructure := ⟨T0, 1, (0, 1), (1, 2), (0, 2)⟩

/-- Witness for C3: at radius `1/4` the arc of span 2 holds
`1/4 * 2 = 1/2 < 1 = d_element`, so no element is placed. -/
theorem C3_witness :
    C3cfg.valid ∧ 0 < C3cfg.d_element ∧
    (1 / 4 : ℝ) * anglediff C3cfg.phi < C3cfg.d_element ∧
    C3cfg.distribute_elements_on_arc (1 / 4) = [] := by
  have hval : C3cfg.valid := by
    unfold GratingArrayStructure.valid C3cfg
    norm_num
  have hd : (0 : ℝ) < C3cfg.d_element := by norm_num [C3cfg]
  have hΔ : anglediff C3cfg.phi = 2 := by
    unfold anglediff C3cfg
    rw [if_neg]
    · norm_num
    · push_neg
      constructor
      · norm_num
      · norm_num
        linarith [Real.pi_gt_three]
  have hlt : (1 / 4 : ℝ) * anglediff C3cfg.phi < C3cfg.d_element := by
    rw [hΔ]
    norm_num [C3cfg]
  exact ⟨hval, hd, hlt, (C3_distribute_elements_on_arc C3cfg hval hd (1 / 4)).2 hlt⟩

/-! ### Claim C4 -/

lemma exceptMapList_cons_error {α β ε : Type} (f : α → Except ε β) (a : α)
    (as : List α) (e : ε) (h : f a = .error e) :
    exceptMapList f (a :: as) = .error e := by
  simp [exceptMapList, h]

lemma exceptConcatList_cons_error {α β ε : Type} (f : α → Except ε (List β))
    (a : α) (as : List α) (e : ε) (h : f a = .error e) :
    exceptConcatList f (a :: as) = .error e := by
  simp [exceptConcatList, h]

/-- A `GratingArrayStructure(T0, d_element=1, x_range=(5,6), radius=(1/2,3/2),
phi=(0,6))`: a valid configuration whose `x_range` misses the torus for every
placement angle. -/
def C4gas : GratingArrayStructure := ⟨T0, 1, (5, 6), (1 / 2, 3 / 2), (0, 6)⟩

/-- On `T0`, any point at radius 1 in the y-z plane has `y² + z² = 1`, and the
quartic is strictly positive on all of `x ∈ [5, 6]`, so the root search over
`(5, 6)` fails with the sign-mismatch condition for every angle. -/
lemma C4gas_xyz_fails (a : ℝ) :
    T0.xyz_from_radiusangle 1 a (5, 6) = .error .signsMismatch := by
  have hpyth := Real.sin_sq_add_cos_sq a
  have hs : Real.sin a ^ 2 ≤ 1 := Real.sin_sq_le_one a
  have hcond : 0 < T0.quartic ⟨(5 : ℝ), 1 * Real.cos a, 1 * Real.sin a⟩ false *
      T0.quartic ⟨(6 : ℝ), 1 * Real.cos a, 1 * Real.sin a⟩ false := by
    simp only [RowlandTorus.quartic, RowlandTorus.quarticFn, Vec3.dot, T0,
      Bool.false_eq_true, if_false]
    have e5 : (5 * 5 + 1 * Real.cos a * (1 * Real.cos a) +
        1 * Real.sin a * (1 * Real.sin a) + 2 ^ 2 - 1 ^ 2) ^ 2 -
        4 * 2 ^ 2 * (5 ^ 2 + (1 * Real.sin a) ^ 2) =
        441 - 16 * Real.sin a ^ 2 := by
      linear_combination (Real.sin a ^ 2 + Real.cos a ^ 2 + 57) * hpyth
    have e6 : (6 * 6 + 1 * Real.cos a * (1 * Real.cos a) +
        1 * Real.sin a * (1 * Real.sin a) + 2 ^ 2 - 1 ^ 2) ^ 2 -
        4 * 2 ^ 2 * (6 ^ 2 + (1 * Real.sin a) ^ 2) =
        1024 - 16 * Real.sin a ^ 2 := by
      linear_combination (Real.sin a ^ 2 + Real.cos a ^ 2 + 79) * hpyth
    rw [e5, e6]
    have h5 : (0 : ℝ) < 441 - 16 * Real.sin a ^ 2 := by nlinarith
    have h6 : (0 : ℝ) < 1024 - 16 * Real.sin a ^ 2 := by nlinarith
    exact mul_pos h5 h6
  have hsolve : T0.solve_quartic (1 * Real.cos a) (1 * Real.sin a) (5, 6) false =
      .error .signsMismatch := by
    unfold RowlandTorus.solve_quartic brentq
    rw [if_pos hcond]
  simp only [RowlandTorus.xyz_from_radiusangle, hsolve]

lemma C4gas_radii : C4gas.distribute_elements_on_radius = [1] := by
  simp only [GratingArrayStructure.distribute_elements_on_radius, distributeRadii,
    maxElementsOnRadius, C4gas]
  rw [show ((3 : ℝ) / 2 - 1 / 2) / 1 = ((1 : ℤ) : ℝ) by norm_num, Int.ceil_intCast]
  norm_num [List.range_succ]

lemma C4gas_anglediff : anglediff C4gas.phi = 6 := by
  unfold anglediff C4gas
  rw [if_neg]
  · norm_num
  · push_neg
    constructor
    · norm_num
    · norm_num
      linarith [Real.pi_gt_three]

lemma C4gas_arc_ne_nil : C4gas.distribute_elements_on_arc 1 ≠ [] := by
  have hlen : (C4gas.distribute_elements_on_arc 1).length = 3 := by
    simp only [GratingArrayStructure.distribute_elements_on_arc,
      GratingArrayStructure.max_elements_on_arc, C4gas_anglediff,
      List.length_map, List.length_range]
    rw [show ((1 : ℝ) - C4gas.d_element / 2) * 6 / C4gas.d_element =
      ((3 : ℤ) : ℝ) by norm_num [C4gas], Int.floor_intCast]
    rfl
  intro h
  rw [h] at hlen
  simp at hlen

/-- **Counterexample for C4.** A valid grating-array configuration where the
torus root search fails with the kernel's "no intersection" sign-mismatch
condition, yet `GratingArrayStructure.calculate_elempos` (which, unlike the
linear variant, has no `try`/`except`) surfaces the raw kernel error rather
than an `ElementPlacementError` carrying the search range. -/
theorem C4_counterexample :
    C4gas.valid ∧
    T0.xyz_from_radiusangle 1 ((C4gas.distribute_elements_on_arc 1).headI)
      (5, 6) = .error .signsMismatch ∧
    C4gas.calculate_elempos = .error (.kernel .signsMismatch) ∧
    C4gas.calculate_elempos ≠ .error (.placement C4gas.x_range) := by
  have hval : C4gas.valid := by
    unfold GratingArrayStructure.valid C4gas
    norm_num
  have helem : ∀ a, C4gas.elemPose 1 a = .error .signsMismatch := by
    intro a
    simp only [GratingArrayStructure.elemPose,
      show C4gas.rowland = T0 from rfl, show C4gas.x_range = (5, 6) from rfl,
      C4gas_xyz_fails a]
  have hinner : exceptMapList (fun a => C4gas.elemPose 1 a)
      (C4gas.distribute_elements_on_arc 1) = .error .signsMismatch := by
    obtain ⟨a, rest, hcons⟩ :=
      List.exists_cons_of_ne_nil C4gas_arc_ne_nil
    rw [hcons]
    exact exceptMapList_cons_error _ _ _ _ (helem a)
  have hconc : exceptConcatList
      (fun r => exceptMapList (fun a => C4gas.elemPose r a)
        (C4gas.distribute_elements_on_arc r)) [1] = .error .signsMismatch :=
    exceptConcatList_cons_error _ _ _ _ hinner
  have hcalc : C4gas.calculate_elempos = .error (.kernel .signsMismatch) := by
    unfold GratingArrayStructure.calculate_elempos
    rw [C4gas_radii, hconc]
  have hhead : T0.xyz_from_radiusangle 1
      ((C4gas.distribute_elements_on_arc 1).headI) (5, 6) =
      .error .signsMismatch := C4gas_xyz_fails _
  refine ⟨hval, hhead, hcalc, ?_⟩
  rw [hcalc]
  simp

/-- **C4 (amended).** Only `LinearCCDArray.calculate_elempos` translates the
root-finding sign-mismatch failure into an `ElementPlacementError`: the linear
variant never surfaces the raw sign-mismatch error, every placement error it
raises carries exactly its own `x_range`, and a sign-mismatch in its loop body
becomes the placement error; `GratingArrayStructure.calculate_elempos`
(which overrides the method without a `try`/`except`) never produces a
placement error at all — kernel failures propagate unchanged. -/
theorem C4_amended_failure_translation :
    (∀ c : LinearCCDArray,
      c.calculate_elempos ≠ .error (.kernel .signsMismatch)) ∧
    (∀ (c : LinearCCDArray) (xr : ℝ × ℝ),
      c.calculate_elempos = .error (.placement xr) → xr = c.x_range) ∧
    (∀ c : LinearCCDArray, c.calculate_elempos_raw = .error .signsMismatch →
      c.calculate_elempos = .error (.placement c.x_range)) ∧
    (∀ (c : GratingArrayStructure) (xr : ℝ × ℝ),
      c.calculate_elempos ≠ .error (.placement xr)) := by
  refine ⟨?_, ?_, ?_, ?_⟩
  · intro c h
    unfold LinearCCDArray.calculate_elempos at h
    cases hr : c.calculate_elempos_raw with
    | ok l => rw [hr] at h; simp at h
    | error e => rw [hr] at h; cases e <;> simp at h
  · intro c xr h
    unfold LinearCCDArray.calculate_elempos at h
    cases hr : c.calculate_elempos_raw with
    | ok l => rw [hr] at h; simp at h
    | error e =>
      rw [hr] at h
      cases e <;> simp at h
      exact h.symm
  · intro c h
    unfold LinearCCDArray.calculate_elempos
    rw [h]
  · intro c xr
    cases hres : exceptConcatList
        (fun r => exceptMapList (fun a => c.elemPose r a)
          (c.distribute_elements_on_arc r))
        c.distribute_elements_on_radius with
    | ok l => simp [GratingArrayStructure.calculate_elempos, hres]
    | error e => simp [GratingArrayStructure.calculate_elempos, hres]

/-- A `LinearCCDArray(T0, d_element=1, x_range=(5,6), radius=(-1,1), phi=0)`:
two element radii, and an `x_range` that misses the torus. -/
def C4lin : LinearCCDArray := ⟨T0, 1, (5, 6), (-1, 1), 0⟩

lemma C4lin_radii : C4lin.distribute_elements_on_radius = [-(1 / 2), 1 / 2] := by
  simp only [LinearCCDArray.distribute_elements_on_radius, distributeRadii,
    maxElementsOnRadius, C4lin]
  rw [show ((1 : ℝ) - -1) / 1 = ((2 : ℤ) : ℝ) by norm_num, Int.ceil_intCast]
  rw [show Int.toNat 2 = 2 from rfl]
  norm_num [List.range_succ]

lemma C4lin_xyz_fails : T0.xyz_from_radiusangle (1 / 2) 0 (5, 6) =
    .error .signsMismatch := by
  have hcond : 0 < T0.quartic ⟨(5 : ℝ), 1 / 2 * Real.cos 0, 1 / 2 * Real.sin 0⟩
      false * T0.quartic ⟨(6 : ℝ), 1 / 2 * Real.cos 0, 1 / 2 * Real.sin 0⟩
      false := by
    norm_num [RowlandTorus.quartic, RowlandTorus.quarticFn, Vec3.dot, T0]
  have hsolve : T0.solve_quartic (1 / 2 * Real.cos 0) (1 / 2 * Real.sin 0)
      (5, 6) false = .error .signsMismatch := by
    unfold RowlandTorus.solve_quartic brentq
    rw [if_pos hcond]
  simp only [RowlandTorus.xyz_from_radiusangle, hsolve]

/-- Witness for the amended C4 on a concrete linear-array configuration whose
root search fails: the raw loop body raises the sign-mismatch error and
`calculate_elempos` re-labels it as the placement error carrying `x_range`. -/
theorem C4_witness :
    C4lin.calculate_elempos_raw = .error .signsMismatch ∧
    C4lin.calculate_elempos = .error (.placement C4lin.x_range) ∧
    C4lin.calculate_elempos ≠ .error (.kernel .signsMismatch) ∧
    C4lin.x_range = (5, 6) := by
  have hraw : C4lin.calculate_elempos_raw = .error .signsMismatch := by
    simp only [LinearCCDArray.calculate_elempos_raw, C4lin_radii]
    simp only [show C4lin.rowland = T0 from rfl,
      show C4lin.phi = 0 from rfl, show C4lin.x_range = (5, 6) from rfl]
    simp only [List.get?]
    rw [C4lin_xyz_fails]
  exact ⟨hraw, C4_amended_failure_translation.2.2.1 C4lin hraw,
    C4_amended_failure_translation.1 C4lin, rfl⟩

/-! ### Claim C5 -/

/-- **Counterexample for C5.** The claim attaches tangent-to-torus mode to the
grating-array variant, but the fixed mode flags in the source are
`GratingArrayStructure.tangent_to_torus = False` (focused-ray orientation) and
`LinearCCDArray.tangent_to_torus = True` (tangent orientation). -/
theorem C5_counterexample :
    GratingArrayStructure.tangent_to_torus = false ∧
    LinearCCDArray.tangent_to_torus = true :=
  ⟨rfl, rfl⟩

/-- **C5 (amended).** The fixed orientation-mode flag selects tangent-to-torus
mode for the *linear-array* variant (`True`) and focused-ray mode for the
*grating-array* variant (`False`).  The linear variant's rotation has the
facet normal as its first row, as second row the line-of-centers direction
minus its projection onto the normal (orthogonal to a unit normal), and as
third row the normalized cross product of the first two.  The grating variant
builds its rotation with `ex2vec_fix(element_normal, e_y)` — local x-axis
along the given direction, groove y-axis kept parallel to the global y-axis —
where, because its flag is `False`, the direction passed is the element
center position itself (focused-ray orientation), not the torus normal. -/
theorem C5_amended_orientation_modes :
    LinearCCDArray.tangent_to_torus = true ∧
    GratingArrayStructure.tangent_to_torus = false ∧
    (∀ nv line : Vec3,
      (linearRotMat nv line).r0 = nv ∧
      (linearRotMat nv line).r1 = line - (nv.dot line) • nv ∧
      (linearRotMat nv line).r2 =
        (Vec3.cross nv ((linearRotMat nv line).r1)).normalize ∧
      (nv.dot nv = 1 → ((linearRotMat nv line).r1).dot nv = 0)) ∧
    (∀ v : Vec3, (ex2vec_fix v ⟨0, 1, 0⟩).r0 = v.normalize) ∧
    (∀ (c : GratingArrayStructure) (r a : ℝ) (p : Vec3),
      c.rowland.xyz_from_radiusangle r a c.x_range = .ok p →
      c.elemPose r a = .ok ⟨ex2vec_fix p ⟨0, 1, 0⟩, p⟩) := by
  refine ⟨rfl, rfl, ?_, ?_, ?_⟩
  · intro nv line
    refine ⟨rfl, rfl, rfl, ?_⟩
    intro h
    unfold Vec3.dot at h
    show (line - (nv.dot line) • nv).dot nv = 0
    simp only [Vec3.dot, Vec3.sub_def, Vec3.smul_def]
    linear_combination (-(nv.x * line.x + nv.y * line.y + nv.z * line.z)) * h
  · intro v
    rfl
  · intro c r a p hxyz
    simp only [GratingArrayStructure.elemPose, hxyz,
      GratingArrayStructure.tangent_to_torus, Bool.false_eq_true, if_false]

/-- A `GratingArrayStructure(T0, d_element=1, x_range=(2,3), radius=(1,2),
phi=(0,2))` for the C5 witness. -/
def C5gas : GratingArrayStructure := ⟨T0, 1, (2, 3), (1, 2), (0, 2)⟩

/-- Witness for the amended C5: a unit normal makes the linear rotation's
second row orthogonal to its first, and on `C5gas` a successful placement at
`(r, a) = (1, 0)` produces the focused-ray pose `ex2vec_fix(P23, e_y)`. -/
theorem C5_witness :
    (⟨1, 0, 0⟩ : Vec3).dot ⟨1, 0, 0⟩ = 1 ∧
    ((linearRotMat ⟨1, 0, 0⟩ ⟨0, 1, 0⟩).r1).dot ⟨1, 0, 0⟩ = 0 ∧
    (ex2vec_fix ⟨2, 0, 0⟩ ⟨0, 1, 0⟩).r0 = Vec3.normalize ⟨2, 0, 0⟩ ∧
    C5gas.elemPose 1 0 = .ok ⟨ex2vec_fix P23 ⟨0, 1, 0⟩, P23⟩ := by
  have h := C5_amended_orientation_modes
  refine ⟨by norm_num [Vec3.dot], ?_, h.2.2.2.1 ⟨2, 0, 0⟩, ?_⟩
  · exact (h.2.2.1 ⟨1, 0, 0⟩ ⟨0, 1, 0⟩).2.2.2 (by norm_num [Vec3.dot])
  · exact h.2.2.2.2 C5gas 1 0 P23 xyz23_ok
